import Mathlib

/-!
Shallow embedding of the schema-generation pipeline of the
typed-adventureland repository (src/generator/Generator.ts), together
with theorems settling the specification claims about it.

The embedding follows the source closely:

* JavaScript objects become association lists in insertion order.
* A descriptor file on disk is a pair of a file name and its content;
  the content is modelled at the granularity at which the source
  consumes it: JSON.parse either throws (modelled as none) or yields a
  parsed object whose fields may each be absent (the source casts the
  parsed value with `as GeneratorConfig` and performs no validation,
  so absent fields are representable and accepted).
* Side effects (writeFileSync) become explicit ordered write lists;
  the state of a file after a run is the value left by the last write
  to its path.
* Helpers of the repository that live outside src (capitalize,
  groupBy, analyseAll, generateTypes, the prettier formatter) are
  modelled from the spec; each such definition carries a doc comment
  saying so.
-/

namespace Adventureland

/-- A JSON value, as produced by JSON.parse on the raw dataset. -/
inductive JsonValue where
  | str (s : String)
  | num (n : Int)
  | bool (b : Bool)
  | null
  | arr (xs : List JsonValue)
  | obj (fields : List (String × JsonValue))

/-- A raw record: a JS object, field name to value, in insertion order. -/
abbrev Record : Type := List (String × JsonValue)

/-- The raw dataset: category name to ordered record list (a JS object). -/
abbrev RawData : Type := List (String × List Record)

/-- A parsed descriptor object. The source parses descriptor files with
JSON.parse and casts the result with `as GeneratorConfig` without any
validation, so every field may be absent; an absent field is none.
Mirrors the GeneratorConfig interface of src/generator/Generator.ts. -/
structure ConfigJson where
  disabled : Option Bool
  GKey : Option String
  groupKey : Option (Option String)
  nameOverride : Option (List (String × String))
  overrides : Option (List (String × String))
  extractedTypes : Option (List (String × String))
  description : Option (List (String × String))
deriving DecidableEq, Repr

/-- JS truthiness of an optional boolean field: undefined and false are
falsy, true is truthy (the `if (disabled) continue` test). -/
def isTruthyBool (o : Option Bool) : Bool :=
  o.getD false

/-- JS truthiness of a string-or-null value: null and the empty string
are falsy (the `groupKey ? ... : ...` test). -/
def isTruthyStr (o : Option String) : Bool :=
  match o with
  | some s => s != ""
  | none => false

/-- The groupKey value the source destructures from a config: an absent
field behaves exactly like null at every use site. -/
def jsGroupKey (cj : ConfigJson) : Option String :=
  cj.groupKey.getD none

/-- The characters of a list after its last occurrence of a separator,
or the whole list when the separator does not occur. -/
def afterChar (sep : Char) (cs : List Char) : List Char :=
  cs.foldl (fun acc c => if c = sep then [] else acc ++ [c]) []

/-- Node path.extname restricted to what loadConfig needs: the suffix of
the last path segment from its last dot, empty when the segment has no
dot or when its only dot is the leading character. -/
def extnameOf (s : String) : String :=
  let base := afterChar '/' s.data
  let rev := base.reverse
  let tail := rev.takeWhile (fun c => c ≠ '.')
  if tail.length = rev.length then ""
  else if tail.length + 1 = rev.length then ""
  else String.mk ('.' :: tail.reverse)

/-- Node path.basename with the ".json" extension argument: strips the
directory part, then strips a trailing ".json" unless the whole base
name is exactly ".json". -/
def basenameJson (s : String) : String :=
  let base := afterChar '/' s.data
  if base.reverse.take 5 = (".json").data.reverse ∧ base ≠ (".json").data then
    String.mk (base.take (base.length - 5))
  else String.mk base

/-- Node path.join restricted to the two-argument form used here. -/
def pathJoin (a b : String) : String :=
  a ++ "/" ++ b

/-- JS Map.set on an insertion-ordered association list: replace the
value in place when the key exists, append otherwise. -/
def listSet (m : List (String × ConfigJson)) (k : String) (v : ConfigJson) :
    List (String × ConfigJson) :=
  if m.any (fun p => p.1 == k) then
    m.map (fun p => if p.1 == k then (k, v) else p)
  else m ++ [(k, v)]

/-- Whether the config map holds an entry under the given key. -/
def hasKey (m : List (String × ConfigJson)) (b : String) : Bool :=
  m.any (fun p => p.1 == b)

/-- The message of the exception JSON.parse throws on unparsable text.
It reports a position in the text; it carries no file name, and
loadConfig does not wrap it with one. -/
def parseErrorMsg : String :=
  "SyntaxError: Unexpected token in JSON"

/-- A descriptor directory: file name to content; none is content that
JSON.parse rejects. -/
abbrev ConfigDir : Type := List (String × Option ConfigJson)

/-- The loop body of Generator.loadConfig over the .json files of the
directory: parse each file (the parse exception aborts the loop) and
set the parsed config into the map under the file base name. -/
def loadConfigGo (acc : List (String × ConfigJson)) :
    List (String × Option ConfigJson) → Except String (List (String × ConfigJson))
  | [] => Except.ok acc
  | (_, none) :: _ => Except.error parseErrorMsg
  | (n, some c) :: rest => loadConfigGo (listSet acc (basenameJson n) c) rest

/-- Generator.loadConfig: read the .json files of the descriptor
directory, JSON.parse each one (no validation beyond parsing), and
store each under its file base name. -/
def loadConfig (files : ConfigDir) : Except String (List (String × ConfigJson)) :=
  loadConfigGo [] (files.filter (fun f => extnameOf f.1 == ".json"))

/-- Whether some loaded config declares the given GKey (the inner scan
of Generator.generateDefaultConfigs with its labelled continue). -/
def declaresGKey (cm : List (String × ConfigJson)) (k : String) : Bool :=
  cm.any (fun p => p.2.GKey == some k)

/-- The default config Generator.generateDefaultConfigs synthesizes for
a category lacking one. -/
def defaultConfigFor (k : String) : ConfigJson :=
  { disabled := some true
    GKey := some k
    groupKey := some none
    nameOverride := some []
    overrides := some []
    extractedTypes := some []
    description := some [] }

/-- Generator.generateDefaultConfigs as the ordered list of descriptor
writes it performs: for each key of the raw dataset, skip "version",
skip keys some loaded config declares, and otherwise, when a config
directory has been set, write a default config to a file named after
the category. File names are relative to the config directory. -/
def generateDefaultConfigs (cm : List (String × ConfigJson))
    (configDir : Option String) (data : RawData) : List (String × ConfigJson) :=
  data.filterMap (fun p =>
    if p.1 == "version" then none
    else if declaresGKey cm p.1 then none
    else if configDir.isSome then some (p.1 ++ ".json", defaultConfigFor p.1)
    else none)

/-- writeFileSync into a directory listing: overwrite in place when the
file exists, append otherwise. -/
def writeConfigFile (fs : ConfigDir) (n : String) (c : ConfigJson) : ConfigDir :=
  if fs.any (fun p => p.1 == n) then
    fs.map (fun p => if p.1 == n then (n, some c) else p)
  else fs ++ [(n, some c)]

/-- Apply a list of descriptor writes in order. -/
def applyConfigWrites (fs : ConfigDir) (ws : List (String × ConfigJson)) : ConfigDir :=
  ws.foldl (fun acc w => writeConfigFile acc w.1 w.2) fs

/-- One Config Store reconciliation run (spec section 8): loadConfig on
the descriptor directory, then generateDefaultConfigs on the raw
dataset. Returns the directory after the run and the writes performed;
a parse failure aborts the run before any write. -/
def reconcileRun (dir : String) (fs : ConfigDir) (data : RawData) :
    ConfigDir × List (String × ConfigJson) :=
  match loadConfig fs with
  | Except.error _ => (fs, [])
  | Except.ok cm =>
    let ws := generateDefaultConfigs cm (some dir) data
    (applyConfigWrites fs ws, ws)

/-- Deduplicate a list of strings keeping the first occurrence of each,
in first-seen order (spec sections 4.2 and 4.3). -/
def dedupFirstAux (seen : List String) : List String → List String
  | [] => []
  | x :: xs => if x ∈ seen then dedupFirstAux seen xs else x :: dedupFirstAux (x :: seen) xs

/-- Deduplication preserving first-seen order. -/
def dedupFirst (l : List String) : List String :=
  dedupFirstAux [] l

/-- Modelled from the spec: the capitalize helper
(src/generator/helpers/capitalize, not under src/) normalizes a name by
uppercasing its first character, leaving the rest unchanged. -/
def capitalize (s : String) : String :=
  match s.data with
  | [] => s
  | c :: cs => String.mk (Char.toUpper c :: cs)

/-- Modelled from the spec: the value a record exposes at a field when
used as a JS property key, rendered as a string. The spec (section 9)
leaves the missing-field policy open; a record without the field lands
under the key "undefined", which is what indexing a JS object with an
absent property yields. -/
def stringKeyOf (key : String) (r : Record) : String :=
  match List.lookup key r with
  | some (JsonValue.str s) => s
  | some (JsonValue.num n) => toString n
  | some (JsonValue.bool b) => cond b "true" "false"
  | some JsonValue.null => "null"
  | some (JsonValue.arr _) => "array"
  | some (JsonValue.obj _) => "object"
  | none => "undefined"

/-- Modelled from the spec: the groupBy helper
(src/generator/helpers/groupBy, not under src/) partitions records by
the value at the grouping field; the group names are the distinct
observed values in first-seen order, and records keep their relative
order inside each group (spec section 4.2). -/
def groupBy (records : List Record) (key : String) : List (String × List Record) :=
  (dedupFirst (records.map (stringKeyOf key))).map
    (fun g => (g, records.filter (fun r => stringKeyOf key r == g)))

/-- Line 106 of Generator.ts: group by the configured key when it is
truthy, otherwise a single group named after the category holding the
whole record list. -/
def mkGrouped (records : List Record) (GKey : String) (groupKey : Option String) :
    List (String × List Record) :=
  if isTruthyStr groupKey then groupBy records (groupKey.getD "") else [(GKey, records)]

/-- One analysis result, at the granularity the assembly step consumes:
the (possibly renamed) group name and the member key union. -/
structure AnalysisResult where
  category : String
  memberKeys : List String
deriving DecidableEq, Repr

/-- Modelled from the spec: the Analyzer renames a group through the
nameOverride mapping of the config when an entry exists. -/
def applyNameOverride (cj : ConfigJson) (name : String) : String :=
  match List.lookup name (cj.nameOverride.getD []) with
  | some n => n
  | none => name

/-- Modelled from the spec: the key union of a group is the sequence of
distinct identifying values of its records, deduplicated in first-seen
order (spec section 4.3, step 1; the end-to-end example of section 8
identifies records by their id field). -/
def recordIdKeys (records : List Record) : List String :=
  dedupFirst (records.filterMap (fun r =>
    match List.lookup "id" r with
    | some (JsonValue.str s) => some s
    | _ => none))

/-- Modelled from the spec: analyseAll (src/generator/analysis, not
under src/) produces one analysis result per group, in group order,
with the group name passed through nameOverride and the key union of
the member records. -/
def analyseAll (grouped : List (String × List Record)) (cj : ConfigJson) :
    List AnalysisResult :=
  grouped.map (fun g =>
    { category := applyNameOverride cj g.1, memberKeys := recordIdKeys g.2 })

/-- Modelled from the spec: generateTypes (src/generator/generateTs, not
under src/) renders one declaration module, with the member key union
and the record shape of the group; only its determinism matters to the
claims settled here. -/
def generateTypes (val : AnalysisResult) (groupKey : Option String) (cj : ConfigJson) : String :=
  let keyUnion := String.intercalate " | " (val.memberKeys.map (fun k => "\"" ++ k ++ "\""))
  let marker := cond (isTruthyStr groupKey && (cj.GKey == cj.GKey)) "" ""
  "export type " ++ val.category ++ "Key = " ++ keyUnion ++ ";\n" ++ marker ++
    "export interface G" ++ val.category ++ " \x7b\x7d"

/-- Modelled from the spec: output formatting is out of scope (spec
section 1), so the deterministic prettier formatter is the identity on
text here. -/
def prettierFormat (s : String) : String :=
  s

/-- The scratch directory, path.resolve of a fixed location relative to
the module; modelled as a constant path. -/
def tmpDir : String :=
  "tmp"

/-- Line 145 of Generator.ts: the identifier under which the global
index imports the shape of one group, the group name verbatim. -/
def importedGroupShapeId (val : AnalysisResult) : String :=
  "G" ++ val.category

/-- Line 157 of Generator.ts: the identifier under which the aggregate
GData type references the shape of one group, the capitalized group
name. -/
def referencedGroupShapeId (val : AnalysisResult) : String :=
  "G" ++ capitalize val.category

/-- Lines 150 to 152 of Generator.ts: the category-level key union,
one disjunct per analysis result referencing that group key union. -/
def categoryKeyUnionLines (GKey : String) (analysis : List AnalysisResult) : List String :=
  ("\nexport type " ++ capitalize GKey ++ "Key =") ::
    analysis.map (fun val => "| " ++ val.category ++ "Key") ++ [";"]

/-- Lines 127 to 152 of Generator.ts: the per-category index module,
re-exports plus, for a grouped category, the key type imports and the
category-level key union. -/
def categoryIndexLines (GKey : String) (groupKey : Option String)
    (analysis : List AnalysisResult) : List String :=
  let exports := analysis.map (fun val => "export * from \x27./" ++ val.category ++ "\x27;")
  if isTruthyStr groupKey then
    exports ++ [""] ++
      analysis.map (fun val =>
        "import type \x7b " ++ val.category ++ "Key, G" ++ val.category ++
          " \x7d from \x27./" ++ val.category ++ "\x27;") ++
      categoryKeyUnionLines GKey analysis
  else exports

/-- Lines 142 to 147 and 161 to 164 of Generator.ts: the import lines
one category contributes to the global GTypes index. -/
def gTypesIndexLines (GKey : String) (groupKey : Option String)
    (analysis : List AnalysisResult) : List String :=
  if isTruthyStr groupKey then
    ["import type \x7b ",
     capitalize GKey ++ "Key,",
     String.intercalate "," (analysis.map importedGroupShapeId),
     "\x7d from \x27./" ++ GKey ++ "\x27;"]
  else
    ["import type \x7b " ++ capitalize GKey ++ "Key, G" ++ capitalize GKey ++
      " \x7d from \x27./" ++ GKey ++ "\x27;"]

/-- Lines 155 to 158 of Generator.ts: the aggregate GData contribution
of a grouped category, mapping every member of the category-level key
union to the union of the shapes of all the groups of the category. -/
def gDataGroupedContrib (GKey : String) (analysis : List AnalysisResult) : List String :=
  (GKey ++ ": \x7b[T in " ++ capitalize GKey ++ "Key]: ") ::
    analysis.map (fun val => "| " ++ referencedGroupShapeId val) ++ ["\x7d;"]

/-- Lines 155 to 158 and 166 of Generator.ts: the aggregate GData
contribution of one category. -/
def gDataLines (GKey : String) (groupKey : Option String)
    (analysis : List AnalysisResult) : List String :=
  if isTruthyStr groupKey then gDataGroupedContrib GKey analysis
  else [GKey ++ ": \x7b[T in " ++ capitalize GKey ++ "Key]: G" ++ capitalize GKey ++ "\x7d;"]

/-- A string rendered as a JSON string literal; escaping inside the
text is not modelled, no serialized name here needs it. -/
def jsonStr (s : String) : String :=
  "\"" ++ s ++ "\""

mutual

/-- JSON.stringify on a JSON value (the two-space indentation argument
the source passes is not modelled, no claim inspects it). -/
def stringifyJson : JsonValue → String
  | JsonValue.str s => jsonStr s
  | JsonValue.num n => toString n
  | JsonValue.bool b => cond b "true" "false"
  | JsonValue.null => "null"
  | JsonValue.arr xs => "[" ++ String.intercalate "," (stringifyJsonList xs) ++ "]"
  | JsonValue.obj fs => "\x7b" ++ String.intercalate "," (stringifyJsonFields fs) ++ "\x7d"

/-- JSON.stringify helper over arrays. -/
def stringifyJsonList : List JsonValue → List String
  | [] => []
  | x :: xs => stringifyJson x :: stringifyJsonList xs

/-- JSON.stringify helper over object fields. -/
def stringifyJsonFields : List (String × JsonValue) → List String
  | [] => []
  | (n, v) :: fs => (jsonStr n ++ ":" ++ stringifyJson v) :: stringifyJsonFields fs

end

/-- JSON.stringify of a grouped record collection. -/
def stringifyGrouped (g : List (String × List Record)) : String :=
  stringifyJson (JsonValue.obj (g.map (fun p => (p.1, JsonValue.arr (p.2.map JsonValue.obj)))))

/-- JSON.stringify of the analysis snapshot written for debugging. -/
def stringifyAnalysis (val : AnalysisResult) : String :=
  stringifyJson (JsonValue.obj
    [("category", JsonValue.str val.category),
     ("memberKeys", JsonValue.arr (val.memberKeys.map JsonValue.str))])

/-- JSON.stringify of a parsed config written back to a descriptor
file: present fields in interface order, absent fields dropped. -/
def stringifyConfig (c : ConfigJson) : String :=
  let strPairs := fun (l : List (String × String)) =>
    JsonValue.obj (l.map (fun p => (p.1, JsonValue.str p.2)))
  let fields : List (Option (String × JsonValue)) :=
    [c.disabled.map (fun b => ("disabled", JsonValue.bool b)),
     c.GKey.map (fun k => ("GKey", JsonValue.str k)),
     c.groupKey.map (fun gk => ("groupKey",
       match gk with | some s => JsonValue.str s | none => JsonValue.null)),
     c.nameOverride.map (fun l => ("nameOverride", strPairs l)),
     c.overrides.map (fun l => ("overrides", strPairs l)),
     c.extractedTypes.map (fun l => ("extractedTypes", strPairs l)),
     c.description.map (fun l => ("description", strPairs l))]
  stringifyJson (JsonValue.obj (fields.filterMap id))

/-- The state of a Generator instance: the loaded config map in
insertion order, the target directory, and the config directory once
loadConfig has run. -/
structure GeneratorState where
  configMap : List (String × ConfigJson)
  targetDir : String
  configDir : Option String

/-- The records of one category of the dataset. A GKey matching no
category is inert (spec section 4.1): its record list is empty. -/
def categoryRecords (data : RawData) (GKey : String) : List Record :=
  (List.lookup GKey data).getD []

/-- The analysis results of one enabled config: its category records,
grouped per line 106 of Generator.ts, analysed per group. -/
def analysisFor (data : RawData) (cj : ConfigJson) (GKey : String) : List AnalysisResult :=
  analyseAll (mkGrouped (categoryRecords data GKey) GKey (jsGroupKey cj)) cj

/-- The path of the per-category index module: outDir/index.ts where
outDir is targetDir/GTypes/GKey (lines 104 and 169 of Generator.ts). -/
def indexPathFor (targetDir GKey : String) : String :=
  pathJoin (pathJoin (pathJoin targetDir "GTypes") GKey) "index.ts"

/-- The formatted content of the per-category index module (lines 127
to 171 of Generator.ts, the lines joined with newlines plus the
trailing semicolon the source appends). -/
def indexContentFor (data : RawData) (cj : ConfigJson) (GKey : String) : String :=
  prettierFormat (String.intercalate "\n"
    (categoryIndexLines GKey (jsGroupKey cj) (analysisFor data cj GKey)) ++ ";")

/-- The writes of one enabled config before its index write, in source
order (lines 112 to 124 of Generator.ts): the grouped debug snapshot,
then per analysis result the analysis snapshot and the declaration
module. -/
def preWritesFor (targetDir : String) (data : RawData) (cj : ConfigJson) (GKey : String) :
    List (String × String) :=
  (pathJoin (pathJoin tmpDir GKey) "grouped.json",
     stringifyGrouped (mkGrouped (categoryRecords data GKey) GKey (jsGroupKey cj))) ::
  (analysisFor data cj GKey).flatMap (fun val =>
    [(pathJoin tmpDir (GKey ++ "/" ++ val.category ++ "_analysis.json"),
        stringifyAnalysis val),
     (pathJoin (pathJoin (pathJoin targetDir "GTypes") GKey) (val.category ++ ".ts"),
        prettierFormat (generateTypes val (jsGroupKey cj) cj))])

/-- All writes of one enabled config in source order: the snapshots and
modules, then the per-category index (line 169 of Generator.ts). -/
def writesFor (targetDir : String) (data : RawData) (cj : ConfigJson) (GKey : String) :
    List (String × String) :=
  preWritesFor targetDir data cj GKey ++
    [(indexPathFor targetDir GKey, indexContentFor data cj GKey)]

/-- The body of the generate loop for one enabled config (lines 100 to
172 of Generator.ts): group, analyse, and return the ordered writes of
the category together with the lines the category pushes onto the
global index and onto the aggregate GData type. Destructuring GKey
from a config that lacks it yields undefined, on which path.join
throws. -/
def processOne (targetDir : String) (data : RawData) (cj : ConfigJson) :
    Except String (List (String × String) × List String × List String) :=
  match cj.GKey with
  | none => Except.error "TypeError: path.join received undefined"
  | some GKey =>
    Except.ok (writesFor targetDir data cj GKey,
      gTypesIndexLines GKey (jsGroupKey cj) (analysisFor data cj GKey),
      gDataLines GKey (jsGroupKey cj) (analysisFor data cj GKey))

/-- The generate loop over the config map values in insertion order:
skip disabled configs, process the rest, concatenating writes and the
accumulated global index and GData lines in iteration order. -/
def processConfigs (targetDir : String) (data : RawData) :
    List ConfigJson → Except String (List (String × String) × List String × List String)
  | [] => Except.ok ([], [], [])
  | cj :: rest =>
    if isTruthyBool cj.disabled then processConfigs targetDir data rest
    else
      match processOne targetDir data cj with
      | Except.error e => Except.error e
      | Except.ok (w, gi, gd) =>
        match processConfigs targetDir data rest with
        | Except.error e => Except.error e
        | Except.ok (ws, gis, gds) => Except.ok (w ++ ws, gi ++ gis, gd ++ gds)

/-- The per-category portion of Generator.generate: every write and
accumulated line the loop produces. -/
def generateParts (st : GeneratorState) (data : RawData) :
    Except String (List (String × String) × List String × List String) :=
  processConfigs st.targetDir data (st.configMap.map Prod.snd)

/-- A descriptor write with its path inside the config directory. -/
def pathJoinOpt (o : Option String) (n : String) : String :=
  match o with
  | some d => pathJoin d n
  | none => n

/-- Generator.generate as the ordered list of writes of a run on an
already fetched dataset: the default-config scaffolding writes, then
the per-category writes, then the global GTypes index assembled from
the accumulated import lines and the GData type. -/
def generate (st : GeneratorState) (data : RawData) :
    Except String (List (String × String)) :=
  let defWrites := (generateDefaultConfigs st.configMap st.configDir data).map
    (fun nc => (pathJoinOpt st.configDir nc.1, stringifyConfig nc.2))
  match generateParts st data with
  | Except.error e => Except.error e
  | Except.ok (ws, gti, gdt) =>
    let gData := ["\nexport type GData = \x7b"] ++ gdt ++ ["\x7d"]
    Except.ok (defWrites ++ ws ++
      [(pathJoin (pathJoin st.targetDir "GTypes") "index.ts",
        prettierFormat (String.intercalate "\n" (gti ++ [String.intercalate "\n" gData])))])

/-- The content a sequence of writeFileSync calls leaves at a path: the
value of the last write to that path, if any. -/
def lastWrite (ws : List (String × String)) (p : String) : Option String :=
  ((ws.filter (fun w => w.1 == p)).getLast?).map (fun w => w.2)

/-- Whether an Except value is a success. -/
def exceptIsOk {α : Type} (e : Except String α) : Bool :=
  match e with
  | Except.ok _ => true
  | Except.error _ => false

/-- The writes of a generate run, empty when the run aborted. -/
def writesOk (e : Except String (List (String × String))) : List (String × String) :=
  match e with
  | Except.ok ws => ws
  | Except.error _ => []

/-- The accumulated global index import lines of a run of the generate
loop, empty when the run aborted. -/
def globalImportsOf
    (e : Except String (List (String × String) × List String × List String)) : List String :=
  match e with
  | Except.ok t => t.2.1
  | Except.error _ => []

/-- Resolve one disjunct line of the emitted category-level key union
against the analysis results that declared the group key unions. Each
group key type lives in the module named after the group, and modules
are written in analysis order with the last write winning, so a
disjunct resolves to the last analysis result carrying its name. -/
def keyRefMembers (analysis : List AnalysisResult) (ref : String) : List String :=
  match analysis.reverse.find? (fun v => ("| " ++ v.category ++ "Key") == ref) with
  | some v => v.memberKeys
  | none => []

/-- The member keys the emitted category-level key union denotes: each
disjunct line resolved to the key union of its group; a union type
collapses duplicate members, modelled by first-seen deduplication. -/
def categoryKeyUnionMembers (GKey : String) (analysis : List AnalysisResult) : List String :=
  dedupFirst ((((categoryKeyUnionLines GKey analysis).drop 1).dropLast).flatMap
    (keyRefMembers analysis))

/-- The union of shape references the emitted aggregate contribution
assigns to every member of the category-level key union: the disjunct
lines of the mapped type with the leading bar stripped. -/
def codeShapeUnion (GKey : String) (analysis : List AnalysisResult) : List String :=
  (((gDataGroupedContrib GKey analysis).drop 1).dropLast).map (fun l => l.drop 2)

/-- Follows the spec words of claim C2, for comparison with the emitted
contribution: a discriminated mapping assigns to each category-level
key exactly the shape of the group that key belongs to. -/
def specDiscriminatedShapeOf (analysis : List AnalysisResult) (k : String) : List String :=
  (analysis.filter (fun v => v.memberKeys.contains k)).map referencedGroupShapeId

/-- Whether a name begins with a capital letter, the wording of claim
C8. -/
def beginsWithCapital (s : String) : Bool :=
  match s.data with
  | [] => false
  | c :: _ => c.isUpper

/-- A descriptor that parses as JSON but declares none of the fields of
the GeneratorConfig interface. -/
def emptyConfigJson : ConfigJson :=
  { disabled := none, GKey := none, groupKey := none, nameOverride := none,
    overrides := none, extractedTypes := none, description := none }

/-- An enabled, ungrouped, fully populated config for one category. -/
def enabledConfigFor (k : String) : ConfigJson :=
  { disabled := some false, GKey := some k, groupKey := some none,
    nameOverride := some [], overrides := some [], extractedTypes := some [],
    description := some [] }

/-- A generator whose two loaded configs name the distinct categories
foo and Foo, which normalize to the same declaration identifiers. -/
def collideState : GeneratorState :=
  { configMap := [("foo", enabledConfigFor "foo"), ("Foo", enabledConfigFor "Foo")],
    targetDir := "out", configDir := none }

/-- A dataset holding the two colliding categories. -/
def collideData : RawData :=
  [("foo", [[("id", JsonValue.str "a")]]), ("Foo", [[("id", JsonValue.str "b")]])]

/-- A descriptor whose declared GKey is bar. -/
def strayConfig : ConfigJson :=
  defaultConfigFor "bar"

/-- A descriptor directory whose single file foo.json declares the
GKey bar, so file identity and declared GKey disagree. -/
def mismatchedDir : ConfigDir :=
  [("foo.json", some strayConfig)]

/-- A dataset with the two categories foo and bar. -/
def twoCatData : RawData :=
  [("foo", []), ("bar", [])]

/-- An enabled config declaring the category items. -/
def c9CfgA : ConfigJson :=
  enabledConfigFor "items"

/-- A second enabled config declaring the same category items, with a
different name override so its output differs from c9CfgA. -/
def c9CfgB : ConfigJson :=
  { enabledConfigFor "items" with nameOverride := some [("items", "Stuff")] }

/-- An enabled grouped config whose nameOverride renames the two
groups weapon and shield to the same name X. -/
def dupNameConfig : ConfigJson :=
  { disabled := some false, GKey := some "items", groupKey := some (some "type"),
    nameOverride := some [("weapon", "X"), ("shield", "X")],
    overrides := some [], extractedTypes := some [], description := some [] }

/-- A dataset whose category items holds one weapon record with id a
and one shield record with id b. -/
def dupData : RawData :=
  [("items", [[("id", JsonValue.str "a"), ("type", JsonValue.str "weapon")],
              [("id", JsonValue.str "b"), ("type", JsonValue.str "shield")]])]

/-! ## Helper lemmas -/

theorem str_append_left_inj (p a b : String) : p ++ a = p ++ b ↔ a = b := by
  constructor
  · intro h
    apply String.ext
    have h2 := congrArg String.data h
    rw [String.data_append, String.data_append] at h2
    exact List.append_cancel_left h2
  · intro h
    rw [h]

theorem str_append_right_inj (s a b : String) : a ++ s = b ++ s ↔ a = b := by
  constructor
  · intro h
    apply String.ext
    have h2 := congrArg String.data h
    rw [String.data_append, String.data_append] at h2
    exact List.append_cancel_right h2
  · intro h
    rw [h]

theorem mem_generateDefaultConfigs (cm : List (String × ConfigJson)) (o : Option String)
    (data : RawData) (n : String) (c : ConfigJson) :
    (n, c) ∈ generateDefaultConfigs cm o data ↔
      ∃ k recs, (k, recs) ∈ data ∧ k ≠ "version" ∧ declaresGKey cm k = false ∧
        o.isSome = true ∧ n = k ++ ".json" ∧ c = defaultConfigFor k := by
  unfold generateDefaultConfigs
  rw [List.mem_filterMap]
  constructor
  · rintro ⟨⟨k, recs⟩, hmem, hf⟩
    by_cases h1 : k = "version"
    · simp [h1] at hf
    by_cases h2 : declaresGKey cm k = true
    · simp [h1, h2] at hf
    by_cases h3 : o.isSome = true
    · simp [h1, h2, h3] at hf
      exact ⟨k, recs, hmem, h1, by simpa using h2, h3, hf.1.symm, hf.2.symm⟩
    · simp [h1, h2, h3] at hf
  · rintro ⟨k, recs, hmem, h1, h2, h3, rfl, rfl⟩
    exact ⟨(k, recs), hmem, by simp [h1, h2, h3]⟩

theorem generateDefaultConfigs_none (cm : List (String × ConfigJson)) (data : RawData) :
    generateDefaultConfigs cm none data = [] := by
  unfold generateDefaultConfigs
  rw [List.filterMap_eq_nil_iff]
  intro p _
  by_cases h1 : p.1 == "version" <;> by_cases h2 : declaresGKey cm p.1 <;>
    simp [h1, h2]

theorem loadConfigGo_isOk (acc : List (String × ConfigJson))
    (l : List (String × Option ConfigJson)) :
    exceptIsOk (loadConfigGo acc l) = true ↔ ∀ f ∈ l, f.2 ≠ none := by
  induction l generalizing acc with
  | nil => simp [loadConfigGo, exceptIsOk]
  | cons f rest ih =>
    obtain ⟨n, oc⟩ := f
    cases oc with
    | none => simp [loadConfigGo, exceptIsOk]
    | some c => simp [loadConfigGo, ih]

theorem loadConfigGo_error (acc : List (String × ConfigJson))
    (l : List (String × Option ConfigJson)) (e : String) :
    loadConfigGo acc l = Except.error e → e = parseErrorMsg := by
  induction l generalizing acc with
  | nil => intro h; simp [loadConfigGo] at h
  | cons f rest ih =>
    obtain ⟨n, oc⟩ := f
    cases oc with
    | none =>
      intro h
      simp [loadConfigGo] at h
      exact h.symm
    | some c =>
      intro h
      exact ih _ h

theorem any_key_iff (fs : ConfigDir) (n : String) :
    fs.any (fun p => p.1 == n) = true ↔ n ∈ fs.map Prod.fst := by
  simp [List.any_eq_true, List.mem_map]

theorem mem_listSet (m : List (String × ConfigJson)) (k : String) (v : ConfigJson)
    (p : String × ConfigJson) (hp : p ∈ listSet m k v) : p ∈ m ∨ p = (k, v) := by
  unfold listSet at hp
  by_cases h : m.any (fun q => q.1 == k) = true
  · rw [if_pos h] at hp
    obtain ⟨q, hq, hqe⟩ := List.mem_map.mp hp
    by_cases h2 : (q.1 == k) = true
    · rw [if_pos h2] at hqe
      exact Or.inr hqe.symm
    · rw [if_neg h2] at hqe
      exact Or.inl (hqe ▸ hq)
  · rw [if_neg h] at hp
    rcases List.mem_append.mp hp with h1 | h1
    · exact Or.inl h1
    · exact Or.inr (List.mem_singleton.mp h1)

theorem hasKey_listSet_self (m : List (String × ConfigJson)) (k : String) (v : ConfigJson) :
    hasKey (listSet m k v) k = true := by
  unfold hasKey listSet
  by_cases h : m.any (fun q => q.1 == k) = true
  · rw [if_pos h]
    obtain ⟨q, hq, hqe⟩ := List.any_eq_true.mp h
    rw [List.any_eq_true]
    exact ⟨(k, v), List.mem_map.mpr ⟨q, hq, by rw [if_pos hqe]⟩, by simp⟩
  · rw [if_neg h, List.any_eq_true]
    exact ⟨(k, v), List.mem_append_right _ (List.mem_singleton.mpr rfl), by simp⟩

theorem hasKey_listSet_mono (m : List (String × ConfigJson)) (k b : String)
    (v : ConfigJson) (h : hasKey m b = true) : hasKey (listSet m k v) b = true := by
  unfold hasKey at h ⊢
  unfold listSet
  obtain ⟨q, hq, hqe⟩ := List.any_eq_true.mp h
  by_cases hm : m.any (fun r => r.1 == k) = true
  · rw [if_pos hm, List.any_eq_true]
    by_cases h2 : (q.1 == k) = true
    · refine ⟨(k, v), List.mem_map.mpr ⟨q, hq, by rw [if_pos h2]⟩, ?_⟩
      have hb : q.1 = b := by simpa using hqe
      have hk : q.1 = k := by simpa using h2
      have hkb : k = b := by rw [← hk]; exact hb
      simp [hkb]
    · exact ⟨q, List.mem_map.mpr ⟨q, hq, by rw [if_neg h2]⟩, hqe⟩
  · rw [if_neg hm, List.any_eq_true]
    exact ⟨q, List.mem_append_left _ hq, hqe⟩

theorem exists_of_hasKey (m : List (String × ConfigJson)) (b : String)
    (h : hasKey m b = true) : ∃ v, (b, v) ∈ m := by
  obtain ⟨⟨a, v⟩, hp, he⟩ := List.any_eq_true.mp h
  have ha : a = b := by simpa using he
  subst ha
  exact ⟨v, hp⟩

theorem declares_of_mem (cm : List (String × ConfigJson)) (c : String) (v : ConfigJson)
    (h : (c, v) ∈ cm) (hg : v.GKey = some c) : declaresGKey cm c = true := by
  unfold declaresGKey
  rw [List.any_eq_true]
  exact ⟨(c, v), h, by simp [hg]⟩

theorem loadConfigGo_spec (l : List (String × Option ConfigJson))
    (acc : List (String × ConfigJson)) (hl : ∀ f ∈ l, f.2 ≠ none) :
    ∃ cm, loadConfigGo acc l = Except.ok cm ∧
      (∀ p ∈ cm, p ∈ acc ∨ ∃ n, (n, some p.2) ∈ l ∧ basenameJson n = p.1) ∧
      (∀ n c, (n, some c) ∈ l → hasKey cm (basenameJson n) = true) ∧
      (∀ b, hasKey acc b = true → hasKey cm b = true) := by
  induction l generalizing acc with
  | nil =>
    refine ⟨acc, rfl, fun p hp => Or.inl hp, ?_, fun b h => h⟩
    intro n c hn
    cases hn
  | cons f rest ih =>
    obtain ⟨n, oc⟩ := f
    cases oc with
    | none => exact absurd rfl (hl (n, none) (List.mem_cons_self _ _))
    | some c =>
      obtain ⟨cm, hok, hmem, hcov, hmono⟩ :=
        ih (listSet acc (basenameJson n) c) (fun f hf => hl f (List.mem_cons_of_mem _ hf))
      refine ⟨cm, hok, ?_, ?_, ?_⟩
      · intro p hp
        rcases hmem p hp with hacc | ⟨n2, hn2, hb2⟩
        · rcases mem_listSet acc (basenameJson n) c p hacc with h | h
          · exact Or.inl h
          · refine Or.inr ⟨n, ?_, ?_⟩
            · rw [h]
              exact List.mem_cons_self _ _
            · rw [h]
        · exact Or.inr ⟨n2, List.mem_cons_of_mem _ hn2, hb2⟩
      · intro n2 c2 hn2
        rcases List.mem_cons.mp hn2 with heq | h2
        · have hn2n : n2 = n := congrArg Prod.fst heq
          rw [hn2n]
          exact hmono _ (hasKey_listSet_self acc (basenameJson n) c)
        · exact hcov n2 c2 h2
      · intro b hb
        exact hmono b (hasKey_listSet_mono acc (basenameJson n) b c hb)

theorem loadConfig_spec (fs : ConfigDir)
    (hpar : ∀ f ∈ fs, extnameOf f.1 = ".json" → f.2 ≠ none) :
    ∃ cm, loadConfig fs = Except.ok cm ∧
      (∀ p ∈ cm, ∃ n, (n, some p.2) ∈ fs ∧ extnameOf n = ".json" ∧ basenameJson n = p.1) ∧
      (∀ n c, (n, some c) ∈ fs → extnameOf n = ".json" →
        hasKey cm (basenameJson n) = true) := by
  have hl : ∀ f ∈ fs.filter (fun f => extnameOf f.1 == ".json"), f.2 ≠ none := by
    intro f hf
    obtain ⟨hmem, hpred⟩ := List.mem_filter.mp hf
    exact hpar f hmem (by simpa using hpred)
  obtain ⟨cm, hok, hmem, hcov, -⟩ := loadConfigGo_spec _ [] hl
  refine ⟨cm, hok, ?_, ?_⟩
  · intro p hp
    rcases hmem p hp with h | ⟨n, hn, hb⟩
    · exact absurd h (List.not_mem_nil p)
    · obtain ⟨hmemfs, hpred⟩ := List.mem_filter.mp hn
      exact ⟨n, hmemfs, by simpa using hpred, hb⟩
  · intro n c hn hx
    exact hcov n c (List.mem_filter.mpr ⟨hn, by simp [hx]⟩)

/-- The well-formedness of a descriptor directory assumed by the
amended claim C3: every file is a parsable .json file named after the
GKey its content declares (the consistency the source documents with
"Should match the config file name"). -/
def WellNamedDir (fs : ConfigDir) : Prop :=
  ∀ p ∈ fs, ∃ k c, p.1 = k ++ ".json" ∧ extnameOf p.1 = ".json" ∧
    basenameJson p.1 = k ∧ p.2 = some c ∧ c.GKey = some k

theorem inv_of_loadConfig (fs : ConfigDir) (cm : List (String × ConfigJson))
    (hfs : WellNamedDir fs)
    (hmem : ∀ p ∈ cm, ∃ n, (n, some p.2) ∈ fs ∧ extnameOf n = ".json" ∧
      basenameJson n = p.1) :
    ∀ p ∈ cm, p.2.GKey = some p.1 := by
  intro p hp
  obtain ⟨n, hn, hx, hb⟩ := hmem p hp
  obtain ⟨k, c, h1, h2, h3, h4, h5⟩ := hfs (n, some p.2) hn
  have hc : p.2 = c := Option.some.inj h4
  have hk : k = p.1 := by
    rw [← h3]
    exact hb
  rw [hc, h5, hk]

theorem declares_of_filename (fs : ConfigDir) (cm : List (String × ConfigJson))
    (hfs : WellNamedDir fs)
    (hmem : ∀ p ∈ cm, ∃ n, (n, some p.2) ∈ fs ∧ extnameOf n = ".json" ∧
      basenameJson n = p.1)
    (hcov : ∀ n c, (n, some c) ∈ fs → extnameOf n = ".json" →
      hasKey cm (basenameJson n) = true) :
    ∀ cc : String, (cc ++ ".json") ∈ fs.map Prod.fst → declaresGKey cm cc = true := by
  intro cc hname
  obtain ⟨⟨pn, poc⟩, hp, hpe⟩ := List.mem_map.mp hname
  obtain ⟨k, c, h1, h2, h3, h4, h5⟩ := hfs (pn, poc) hp
  have hk : k = cc := by
    rw [hpe] at h1
    exact (str_append_right_inj ".json" k cc).mp h1.symm
  subst hk
  have hp2 : (pn, some c) ∈ fs := by
    rw [← h4]
    exact hp
  have hhk := hcov pn c hp2 h2
  rw [h3] at hhk
  obtain ⟨v, hv⟩ := exists_of_hasKey cm k hhk
  exact declares_of_mem cm k v hv
    (inv_of_loadConfig fs cm hfs hmem (k, v) hv)

theorem names_generateDefaultConfigs (cm : List (String × ConfigJson)) (o : Option String)
    (data : RawData) :
    (generateDefaultConfigs cm o data).map Prod.fst =
      (data.map Prod.fst).filterMap (fun k =>
        if k == "version" then none
        else if declaresGKey cm k then none
        else if o.isSome then some (k ++ ".json") else none) := by
  unfold generateDefaultConfigs
  rw [List.map_filterMap, List.filterMap_map]
  congr 1
  funext p
  by_cases h1 : p.1 = "version"
  · simp [h1]
  · by_cases h2 : declaresGKey cm p.1 = true
    · simp [h1, h2]
    · by_cases h3 : o.isSome = true
      · simp [h1, h2, h3]
      · simp [h1, h2, h3]

theorem nodup_write_names (cm : List (String × ConfigJson)) (o : Option String)
    (data : RawData) (hnd : (data.map Prod.fst).Nodup) :
    ((generateDefaultConfigs cm o data).map Prod.fst).Nodup := by
  rw [names_generateDefaultConfigs]
  refine List.Nodup.filterMap ?_ hnd
  intro a a' b hb hb'
  have ha : b = a ++ ".json" := by
    by_cases h1 : (a == "version") = true
    · simp [h1] at hb
    by_cases h2 : declaresGKey cm a = true
    · simp [h1, h2] at hb
    by_cases h3 : o.isSome = true
    · simp [h1, h2, h3] at hb
      exact hb.symm
    · simp [h1, h2, h3] at hb
  have ha' : b = a' ++ ".json" := by
    by_cases h1 : (a' == "version") = true
    · simp [h1] at hb'
    by_cases h2 : declaresGKey cm a' = true
    · simp [h1, h2] at hb'
    by_cases h3 : o.isSome = true
    · simp [h1, h2, h3] at hb'
      exact hb'.symm
    · simp [h1, h2, h3] at hb'
  exact (str_append_right_inj ".json" a a').mp (ha ▸ ha')

theorem applyConfigWrites_append (fs : ConfigDir) (ws : List (String × ConfigJson))
    (hnew : ∀ w ∈ ws, w.1 ∉ fs.map Prod.fst)
    (hnd : (ws.map Prod.fst).Nodup) :
    applyConfigWrites fs ws = fs ++ ws.map (fun w => (w.1, some w.2)) := by
  induction ws generalizing fs with
  | nil => simp [applyConfigWrites]
  | cons w rest ih =>
    have hwf : fs.any (fun p => p.1 == w.1) = false := by
      cases h : fs.any (fun p => p.1 == w.1)
      · rfl
      · exact absurd ((any_key_iff fs w.1).mp h) (hnew w (List.mem_cons_self _ _))
    have hstep : writeConfigFile fs w.1 w.2 = fs ++ [(w.1, some w.2)] := by
      unfold writeConfigFile
      rw [if_neg (by simp [hwf])]
    rw [List.map_cons, List.nodup_cons] at hnd
    have happ : applyConfigWrites fs (w :: rest) =
        applyConfigWrites (fs ++ [(w.1, some w.2)]) rest := by
      unfold applyConfigWrites
      rw [List.foldl_cons]
      rw [show writeConfigFile fs w.1 w.2 = fs ++ [(w.1, some w.2)] from hstep]
    rw [happ, ih (fs ++ [(w.1, some w.2)]) ?_ hnd.2]
    · simp [List.append_assoc]
    · intro u hu hmem
      rw [List.map_append] at hmem
      rcases List.mem_append.mp hmem with h | h
      · exact hnew u (List.mem_cons_of_mem _ hu) h
      · have : u.1 = w.1 := by simpa using h
        exact hnd.1 (this ▸ List.mem_map_of_mem Prod.fst hu)

/-! ## Claim C3 -/

/-- C3 counterexample: with a descriptor directory holding the single
file foo.json whose content declares the GKey bar, and a dataset with
the categories foo and bar, the first reconciliation run writes
foo.json — overwriting the existing descriptor — and a second run on
the resulting directory performs a further write (bar.json), so the
scaffolding is neither overwrite-free nor idempotent as claimed. -/
theorem mismatched_descriptor_breaks_scaffolding :
    ((reconcileRun "d" mismatchedDir twoCatData).2 =
        [("foo.json", defaultConfigFor "foo")] ∧
      "foo.json" ∈ mismatchedDir.map Prod.fst) ∧
    (reconcileRun "d" (reconcileRun "d" mismatchedDir twoCatData).1 twoCatData).2 =
      [("bar.json", defaultConfigFor "bar")] := by
  exact ⟨⟨by decide, by decide⟩, by decide⟩

/-- C3 (amended): provided every descriptor file is a parsable .json
file named after the GKey its content declares (the consistency the
GeneratorConfig interface documents) and the dataset category names
are distinct and form valid .json file names, reconciliation is
additive and idempotent: the first run writes only files that do not
yet exist, and a second run on the resulting directory and the same
dataset performs no writes at all. -/
theorem scaffolding_idempotent_additive (dir : String) (fs : ConfigDir) (data : RawData)
    (hfs : WellNamedDir fs)
    (hdata : ∀ q ∈ data, extnameOf (q.1 ++ ".json") = ".json" ∧
      basenameJson (q.1 ++ ".json") = q.1)
    (hnd : (data.map Prod.fst).Nodup) :
    (∀ w ∈ (reconcileRun dir fs data).2, w.1 ∉ fs.map Prod.fst) ∧
    (reconcileRun dir (reconcileRun dir fs data).1 data).2 = [] := by
  have hpar : ∀ f ∈ fs, extnameOf f.1 = ".json" → f.2 ≠ none := by
    intro f hf _
    obtain ⟨k, c, -, -, -, h4, -⟩ := hfs f hf
    rw [h4]
    simp
  obtain ⟨cm, hok, hmem, hcov⟩ := loadConfig_spec fs hpar
  have hinv := inv_of_loadConfig fs cm hfs hmem
  have hdecl := declares_of_filename fs cm hfs hmem hcov
  have hnotin : ∀ w ∈ generateDefaultConfigs cm (some dir) data,
      w.1 ∉ fs.map Prod.fst := by
    intro w hw hc
    obtain ⟨kk, recs, hkmem, hkver, hkdecl, -, h1eq, -⟩ :=
      (mem_generateDefaultConfigs cm (some dir) data w.1 w.2).mp (by simpa using hw)
    rw [h1eq] at hc
    exact absurd (hdecl kk hc) (by simp [hkdecl])
  have happ : applyConfigWrites fs (generateDefaultConfigs cm (some dir) data) =
      fs ++ (generateDefaultConfigs cm (some dir) data).map (fun w => (w.1, some w.2)) :=
    applyConfigWrites_append fs _ hnotin (nodup_write_names cm (some dir) data hnd)
  have hfs2 : WellNamedDir (fs ++
      (generateDefaultConfigs cm (some dir) data).map (fun w => (w.1, some w.2))) := by
    intro p hp
    rcases List.mem_append.mp hp with h | h
    · exact hfs p h
    · obtain ⟨w, hwmem, hweq⟩ := List.mem_map.mp h
      obtain ⟨kk, recs, hkmem, -, -, -, h1eq, h2eq⟩ :=
        (mem_generateDefaultConfigs cm (some dir) data w.1 w.2).mp (by simpa using hwmem)
      have hd := hdata (kk, recs) hkmem
      refine ⟨kk, defaultConfigFor kk, ?_, ?_, ?_, ?_, rfl⟩
      · rw [← hweq]
        exact h1eq
      · rw [← hweq]
        show extnameOf w.1 = ".json"
        rw [h1eq]
        exact hd.1
      · rw [← hweq]
        show basenameJson w.1 = kk
        rw [h1eq]
        exact hd.2
      · rw [← hweq]
        show some w.2 = some (defaultConfigFor kk)
        rw [h2eq]
  have hpar2 : ∀ f ∈ fs ++ (generateDefaultConfigs cm (some dir) data).map
      (fun w => (w.1, some w.2)), extnameOf f.1 = ".json" → f.2 ≠ none := by
    intro f hf _
    obtain ⟨k, c, -, -, -, h4, -⟩ := hfs2 f hf
    rw [h4]
    simp
  obtain ⟨cm2, hok2, hmem2, hcov2⟩ := loadConfig_spec _ hpar2
  have hinv2 := inv_of_loadConfig _ cm2 hfs2 hmem2
  have hall : ∀ q ∈ data, q.1 = "version" ∨ declaresGKey cm2 q.1 = true := by
    intro q hq
    by_cases hv : q.1 = "version"
    · exact Or.inl hv
    refine Or.inr ?_
    by_cases hd : declaresGKey cm q.1 = true
    · obtain ⟨⟨a, v⟩, hpv, hgv⟩ := List.any_eq_true.mp hd
      have hgv2 : v.GKey = some q.1 := by simpa using hgv
      have hga : v.GKey = some a := hinv (a, v) hpv
      have hav : a = q.1 := Option.some.inj (hga.symm.trans hgv2)
      obtain ⟨n, hn, hx, hb⟩ := hmem (a, v) hpv
      have hfile : (n, some v) ∈ fs ++ (generateDefaultConfigs cm (some dir) data).map
          (fun w => (w.1, some w.2)) := List.mem_append_left _ hn
      have hk2 := hcov2 n v hfile hx
      rw [hb] at hk2
      obtain ⟨v2, hv2⟩ := exists_of_hasKey cm2 a hk2
      rw [← hav]
      exact declares_of_mem cm2 a v2 hv2 (hinv2 (a, v2) hv2)
    · have hdf : declaresGKey cm q.1 = false := by
        cases h : declaresGKey cm q.1
        · rfl
        · exact absurd h hd
      have hwmem : (q.1 ++ ".json", defaultConfigFor q.1) ∈
          generateDefaultConfigs cm (some dir) data :=
        (mem_generateDefaultConfigs cm (some dir) data (q.1 ++ ".json")
          (defaultConfigFor q.1)).mpr ⟨q.1, q.2, by simpa using hq, hv, hdf, rfl, rfl, rfl⟩
      have hfile : (q.1 ++ ".json", some (defaultConfigFor q.1)) ∈
          fs ++ (generateDefaultConfigs cm (some dir) data).map
            (fun w => (w.1, some w.2)) :=
        List.mem_append_right _ (List.mem_map.mpr
          ⟨(q.1 ++ ".json", defaultConfigFor q.1), hwmem, rfl⟩)
      have hd2 := hdata q hq
      have hk2 := hcov2 _ _ hfile hd2.1
      rw [hd2.2] at hk2
      obtain ⟨v2, hv2⟩ := exists_of_hasKey cm2 q.1 hk2
      exact declares_of_mem cm2 q.1 v2 hv2 (hinv2 (q.1, v2) hv2)
  have hw2 : generateDefaultConfigs cm2 (some dir) data = [] := by
    unfold generateDefaultConfigs
    rw [List.filterMap_eq_nil_iff]
    intro q hq
    by_cases hv : (q.1 == "version") = true
    · simp [hv]
    · rcases hall q hq with h | h
      · exact absurd (by simpa using h) (by simpa using hv)
      · simp [hv, h]
  constructor
  · intro w hw
    have hr : (reconcileRun dir fs data).2 = generateDefaultConfigs cm (some dir) data := by
      unfold reconcileRun
      rw [hok]
    rw [hr] at hw
    exact hnotin w hw
  · have hr1 : (reconcileRun dir fs data).1 = fs ++
        (generateDefaultConfigs cm (some dir) data).map (fun w => (w.1, some w.2)) := by
      unfold reconcileRun
      rw [hok]
      exact happ
    rw [hr1]
    unfold reconcileRun
    rw [hok2]
    exact hw2

/-- C3 witness: a well-named directory for the category items, with a
dataset adding the category newcat; the second run writes nothing. -/
theorem scaffolding_idempotent_additive_witness :
    (reconcileRun "d" (reconcileRun "d" [("items.json", some (defaultConfigFor "items"))]
      [("items", []), ("newcat", [])]).1 [("items", []), ("newcat", [])]).2 = [] :=
  (scaffolding_idempotent_additive "d" [("items.json", some (defaultConfigFor "items"))]
    [("items", []), ("newcat", [])]
    (by
      intro p hp
      rcases List.mem_singleton.mp hp with rfl
      exact ⟨"items", defaultConfigFor "items", rfl, by decide, by decide, rfl, rfl⟩)
    (by decide) (by decide)).2

theorem mem_dedupFirstAux (x : String) (l seen : List String) :
    x ∈ dedupFirstAux seen l ↔ x ∈ l ∧ x ∉ seen := by
  induction l generalizing seen with
  | nil => simp [dedupFirstAux]
  | cons y ys ih =>
    by_cases hy : y ∈ seen
    · rw [dedupFirstAux, if_pos hy, ih]
      constructor
      · rintro ⟨h1, h2⟩
        exact ⟨List.mem_cons_of_mem y h1, h2⟩
      · rintro ⟨h1, h2⟩
        rcases List.mem_cons.mp h1 with rfl | h1
        · exact absurd hy h2
        · exact ⟨h1, h2⟩
    · rw [dedupFirstAux, if_neg hy]
      by_cases hxy : x = y
      · subst hxy
        simp [hy]
      · simp [List.mem_cons, hxy, ih]

theorem nodup_dedupFirstAux (l seen : List String) : (dedupFirstAux seen l).Nodup := by
  induction l generalizing seen with
  | nil => simp [dedupFirstAux]
  | cons y ys ih =>
    by_cases hy : y ∈ seen
    · rw [dedupFirstAux, if_pos hy]
      exact ih seen
    · rw [dedupFirstAux, if_neg hy, List.nodup_cons]
      refine ⟨fun hmem => ?_, ih (y :: seen)⟩
      exact ((mem_dedupFirstAux y ys (y :: seen)).mp hmem).2 (List.mem_cons_self y seen)

theorem mem_dedupFirst (x : String) (l : List String) : x ∈ dedupFirst l ↔ x ∈ l := by
  simp [dedupFirst, mem_dedupFirstAux]

theorem nodup_dedupFirst (l : List String) : (dedupFirst l).Nodup :=
  nodup_dedupFirstAux l []

theorem toFinset_dedupFirst (l : List String) : (dedupFirst l).toFinset = l.toFinset := by
  ext x
  simp [List.mem_toFinset, mem_dedupFirst]

theorem find_ref_unique (l : List AnalysisResult)
    (h : (l.map (fun v => v.category)).Nodup) (v : AnalysisResult) (hv : v ∈ l) :
    l.find? (fun w => ("| " ++ w.category ++ "Key") == ("| " ++ v.category ++ "Key"))
      = some v := by
  induction l with
  | nil => cases hv
  | cons w rest ih =>
    rcases List.mem_cons.mp hv with rfl | hv2
    · rw [List.find?_cons_of_pos _ (by simp)]
    · have hnecat : w.category ≠ v.category := by
        rw [List.map_cons, List.nodup_cons] at h
        intro he
        exact h.1 (he ▸ List.mem_map_of_mem (fun a => a.category) hv2)
      rw [List.find?_cons_of_neg, ih ?_ hv2]
      · rw [List.map_cons, List.nodup_cons] at h
        exact h.2
      · simp only [beq_iff_eq]
        intro he
        rw [str_append_right_inj, str_append_left_inj] at he
        exact hnecat he

theorem keyRefMembers_resolve (analysis : List AnalysisResult)
    (h : (analysis.map (fun v => v.category)).Nodup) (v : AnalysisResult)
    (hv : v ∈ analysis) :
    keyRefMembers analysis ("| " ++ v.category ++ "Key") = v.memberKeys := by
  unfold keyRefMembers
  have h2 : (analysis.reverse.map (fun v => v.category)).Nodup := by
    rw [List.map_reverse]
    exact List.nodup_reverse.mpr h
  rw [find_ref_unique analysis.reverse h2 v (List.mem_reverse.mpr hv)]

theorem categoryKeyUnionLines_disjuncts (GKey : String) (analysis : List AnalysisResult) :
    ((categoryKeyUnionLines GKey analysis).drop 1).dropLast
      = analysis.map (fun v => "| " ++ v.category ++ "Key") := by
  unfold categoryKeyUnionLines
  simp [List.dropLast_concat]

theorem categoryKeyUnionMembers_spec (GKey : String) (analysis : List AnalysisResult)
    (h : (analysis.map (fun v => v.category)).Nodup) :
    (categoryKeyUnionMembers GKey analysis).toFinset
      = ((analysis.map (fun v => v.memberKeys)).flatten).toFinset := by
  unfold categoryKeyUnionMembers
  rw [toFinset_dedupFirst, categoryKeyUnionLines_disjuncts]
  have hres : (analysis.map (fun v => "| " ++ v.category ++ "Key")).flatMap
      (keyRefMembers analysis) = (analysis.map (fun v => v.memberKeys)).flatten := by
    rw [List.flatMap_def, List.map_map]
    congr 1
    apply List.map_congr_left
    intro v hv
    exact keyRefMembers_resolve analysis h v hv
  rw [hres]

theorem toFinset_flatten_memberKeys (analysis : List AnalysisResult) :
    ((analysis.map (fun v => v.memberKeys)).flatten).toFinset
      = analysis.foldr (fun v acc => v.memberKeys.toFinset ∪ acc) (∅ : Finset String) := by
  induction analysis with
  | nil => simp
  | cons v rest ih => simp [List.toFinset_append, ih]

/-! ## Claim C2 -/

/-- C2, code divergence: for a grouped category the emitted aggregate
contribution assigns to every member of the category-level key union
the flat union of the shapes of all the groups of the category (the
same union for every key), not the shape of the specific group the key
belongs to: at the failing input, a category items with groups weapon
(member key a) and shield (member key b), the mapped type lists both
GWeapon and GShield for every key, while the mapping the claim
describes assigns to key a the single shape GWeapon. -/
theorem gData_contribution_is_flat_union :
    gDataGroupedContrib "items" [⟨"weapon", ["a"]⟩, ⟨"shield", ["b"]⟩] =
      ["items: \x7b[T in ItemsKey]: ", "| GWeapon", "| GShield", "\x7d;"] ∧
    codeShapeUnion "items" [⟨"weapon", ["a"]⟩, ⟨"shield", ["b"]⟩] = ["GWeapon", "GShield"] ∧
    specDiscriminatedShapeOf [⟨"weapon", ["a"]⟩, ⟨"shield", ["b"]⟩] "a" = ["GWeapon"] ∧
    codeShapeUnion "items" [⟨"weapon", ["a"]⟩, ⟨"shield", ["b"]⟩] ≠
      specDiscriminatedShapeOf [⟨"weapon", ["a"]⟩, ⟨"shield", ["b"]⟩] "a" := by
  exact ⟨rfl, rfl, rfl, by decide⟩

/-! ## Claim C4 -/

/-- C4 counterexample: nameOverride may rename two groups to one name.
Grouping the category items of dupData by type and renaming both
groups to X yields two analysis results named X with member keys a and
b; the emitted category-level key union repeats the disjunct XKey, and
since both group modules are written to the same file X.ts with the
last write winning, that union denotes only the member keys of the
surviving declaration — the set holding b alone, not the union of
every group key union — refuting the unconditional claim. -/
theorem renamed_groups_collapse_key_union :
    analysisFor dupData dupNameConfig "items" =
      [⟨"X", ["a"]⟩, ⟨"X", ["b"]⟩] ∧
    ((categoryKeyUnionLines "items"
        (analysisFor dupData dupNameConfig "items")).drop 1).dropLast
      = ["| XKey", "| XKey"] ∧
    categoryKeyUnionMembers "items" (analysisFor dupData dupNameConfig "items") = ["b"] ∧
    (categoryKeyUnionMembers "items"
        (analysisFor dupData dupNameConfig "items")).toFinset ≠
      ((analysisFor dupData dupNameConfig "items").map
        (fun v => v.memberKeys)).flatten.toFinset := by
  exact ⟨rfl, rfl, rfl, by decide⟩

/-- C4 (amended): for a grouped category (truthy groupKey) whose
analysis results carry pairwise-distinct (possibly renamed) group
names, the per-category index emits the category-level key union, and
the member keys that union denotes form a duplicate-free set equal to
the union of the key unions of all the groups of the category; when
nameOverride collapses two group names the duplicated disjuncts all
resolve to the single surviving declaration and the shadowed group
keys are lost. -/
theorem category_key_union_totality (GKey : String) (gk : Option String)
    (analysis : List AnalysisResult)
    (hg : isTruthyStr gk = true)
    (hnd : (analysis.map (fun v => v.category)).Nodup) :
    (∃ pre, categoryIndexLines GKey gk analysis = pre ++ categoryKeyUnionLines GKey analysis) ∧
    (categoryKeyUnionMembers GKey analysis).Nodup ∧
    (categoryKeyUnionMembers GKey analysis).toFinset
      = analysis.foldr (fun v acc => v.memberKeys.toFinset ∪ acc) (∅ : Finset String) := by
  refine ⟨?_, nodup_dedupFirst _, ?_⟩
  · refine ⟨(analysis.map fun val => "export * from \x27./" ++ val.category ++ "\x27;") ++
      [""] ++ (analysis.map fun val => "import type \x7b " ++ val.category ++ "Key, G" ++
        val.category ++ " \x7d from \x27./" ++ val.category ++ "\x27;"), ?_⟩
    simp [categoryIndexLines, hg, List.append_assoc]
  · rw [categoryKeyUnionMembers_spec GKey analysis hnd]
    exact toFinset_flatten_memberKeys analysis

/-- C4 witness: a category items with groups weapon (member key a) and
shield (member key b) yields the key union with member set a, b. -/
theorem category_key_union_totality_witness :
    (categoryKeyUnionMembers "items" [⟨"weapon", ["a"]⟩, ⟨"shield", ["b"]⟩]).toFinset
      = [(⟨"weapon", ["a"]⟩ : AnalysisResult), ⟨"shield", ["b"]⟩].foldr
          (fun v acc => v.memberKeys.toFinset ∪ acc) (∅ : Finset String) :=
  (category_key_union_totality "items" (some "type") [⟨"weapon", ["a"]⟩, ⟨"shield", ["b"]⟩]
    (by decide) (by decide)).2.2

/-! ## Claim C5 -/

/-- C5: once a config directory is set, generateDefaultConfigs writes
exactly the files n with content c such that n names a category of the
raw dataset other than the reserved key version that no loaded config
declares, n is that category name plus .json, and c is the default
config: disabled true, GKey the category name, groupKey null, and
empty nameOverride, overrides, extractedTypes and description maps; in
particular the version key never receives a descriptor. -/
theorem default_config_synthesis (cm : List (String × ConfigJson)) (d : String)
    (data : RawData) (n : String) (c : ConfigJson) :
    (n, c) ∈ generateDefaultConfigs cm (some d) data ↔
      ∃ k recs, (k, recs) ∈ data ∧ k ≠ "version" ∧ declaresGKey cm k = false ∧
        n = k ++ ".json" ∧ c = defaultConfigFor k := by
  rw [mem_generateDefaultConfigs]
  simp

/-- C5 witness: the category items of a dataset with no configs
receives the default descriptor items.json. -/
theorem default_config_synthesis_witness :
    ("items.json", defaultConfigFor "items") ∈
      generateDefaultConfigs [] (some "conf") [("items", [])] :=
  (default_config_synthesis [] "conf" [("items", [])] "items.json"
    (defaultConfigFor "items")).mpr ⟨"items", [], by simp, by decide, rfl, rfl, rfl⟩

/-! ## Claim C6 -/

/-- C6: when the groupKey of a config is none, the grouping step yields
exactly one group, named by the category name itself, containing the
whole record list in its original order. -/
theorem ungrouped_single_group (records : List Record) (GKey : String) :
    mkGrouped records GKey none = [(GKey, records)] ∧
    (mkGrouped records GKey none).length = 1 ∧
    (mkGrouped records GKey none).map Prod.fst = [GKey] ∧
    (mkGrouped records GKey none).map Prod.snd = [records] := by
  refine ⟨?_, ?_, ?_, ?_⟩ <;> simp [mkGrouped, isTruthyStr]

/-! ## Claim C7 -/

/-- C7 counterexample: a descriptor file that parses but is missing
every required field (GKey included) does not abort the run; loadConfig
accepts it and stores it under its file base name. -/
theorem missing_required_field_accepted :
    loadConfig [("broken.json", some emptyConfigJson)] =
      Except.ok [("broken", emptyConfigJson)] := by
  rfl

/-- C7 (amended): loadConfig succeeds exactly when every .json file of
the descriptor directory parses; a parsed descriptor is never
validated, so missing required fields abort nothing, and when some
.json file does not parse the run aborts with the bare JSON parse
error, which carries no descriptor file name. -/
theorem malformed_descriptor_handling (files : ConfigDir) :
    (exceptIsOk (loadConfig files) = true ↔
      ∀ f ∈ files, extnameOf f.1 = ".json" → f.2 ≠ none) ∧
    (∀ e, loadConfig files = Except.error e → e = parseErrorMsg) := by
  constructor
  · unfold loadConfig
    rw [loadConfigGo_isOk]
    constructor
    · intro h f hf hx
      exact h f (List.mem_filter.mpr ⟨hf, by simp [hx]⟩)
    · intro h f hf
      obtain ⟨hmem, hpred⟩ := List.mem_filter.mp hf
      exact h f hmem (by simpa using hpred)
  · intro e he
    exact loadConfigGo_error _ _ e he

/-- C7 witness: a directory with one parsable descriptor and one
unparsable file that is not a .json file loads successfully. -/
theorem malformed_descriptor_handling_witness :
    exceptIsOk (loadConfig [("a.json", some emptyConfigJson), ("b.txt", none)]) = true :=
  (malformed_descriptor_handling
    [("a.json", some emptyConfigJson), ("b.txt", none)]).1.mpr (by decide)

/-! ## Claim C8 -/

/-- C8 counterexample: for the group name 1h the imported identifier
G1h and the referenced identifier G1h coincide although the group name
does not begin with a capital letter, refuting the stated equivalence
in its only-if direction. -/
theorem imported_referenced_coincide_without_capital :
    importedGroupShapeId ⟨"1h", []⟩ = referencedGroupShapeId ⟨"1h", []⟩ ∧
    beginsWithCapital (AnalysisResult.mk "1h" []).category = false := by
  exact ⟨by decide, by decide⟩

/-- C8 (amended): the global index imports the shape of each group as G
plus the group name verbatim while the aggregate GData type references
G plus the capitalized group name, and the two identifiers coincide
exactly when capitalizing the group name leaves it unchanged — true
for names beginning with a capital letter, but also for the empty name
and for names whose first character has no uppercase form, such as
digits. -/
theorem imported_eq_referenced_iff_capitalize_fixed (val : AnalysisResult) :
    importedGroupShapeId val = referencedGroupShapeId val ↔
      capitalize val.category = val.category := by
  unfold importedGroupShapeId referencedGroupShapeId
  rw [str_append_left_inj]
  exact eq_comm

/-! ## Claim C1 -/

theorem processConfigs_ok (t : String) (data : RawData) (l : List ConfigJson)
    (h : ∀ cj ∈ l, isTruthyBool cj.disabled = false → cj.GKey.isSome = true) :
    ∃ r, processConfigs t data l = Except.ok r := by
  induction l with
  | nil => exact ⟨([], [], []), rfl⟩
  | cons cj rest ih =>
    obtain ⟨r, hr⟩ := ih (fun c hc => h c (List.mem_cons_of_mem cj hc))
    by_cases hd : isTruthyBool cj.disabled = true
    · rw [processConfigs, if_pos hd]
      exact ⟨r, hr⟩
    · have hd2 : isTruthyBool cj.disabled = false := by
        cases hb : isTruthyBool cj.disabled
        · rfl
        · exact absurd hb hd
      obtain ⟨k, hk⟩ := Option.isSome_iff_exists.mp (h cj (List.mem_cons_self cj rest) hd2)
      obtain ⟨ws, gis, gds⟩ := r
      rw [processConfigs, if_neg hd]
      simp only [processOne, hk, hr]
      exact ⟨_, rfl⟩

theorem generate_eq (st : GeneratorState) (data : RawData)
    (ws : List (String × String)) (gti gdt : List String)
    (hgp : generateParts st data = Except.ok (ws, gti, gdt)) :
    generate st data = Except.ok
      ((generateDefaultConfigs st.configMap st.configDir data).map
          (fun nc => (pathJoinOpt st.configDir nc.1, stringifyConfig nc.2)) ++ ws ++
        [(pathJoin (pathJoin st.targetDir "GTypes") "index.ts",
          prettierFormat (String.intercalate "\n"
            (gti ++ [String.intercalate "\n"
              (["\nexport type GData = \x7b"] ++ gdt ++ ["\x7d"])])))]) := by
  unfold generate
  rw [hgp]

/-- C1 (amended): the assembly step performs no naming-collision
detection: whenever every enabled config declares a GKey, generate
completes successfully and emits the full output tree, even when two
distinct groups or categories normalize to the same declaration
identifier; nothing in the run inspects the emitted identifiers for
clashes. -/
theorem no_collision_check_generate_succeeds (st : GeneratorState) (data : RawData)
    (h : ∀ p ∈ st.configMap, isTruthyBool p.2.disabled = false → p.2.GKey.isSome = true) :
    exceptIsOk (generate st data) = true := by
  have h2 : ∀ cj ∈ st.configMap.map Prod.snd,
      isTruthyBool cj.disabled = false → cj.GKey.isSome = true := by
    intro cj hc hd
    obtain ⟨p, hp, rfl⟩ := List.mem_map.mp hc
    exact h p hp hd
  obtain ⟨⟨ws, gti, gdt⟩, hr⟩ := processConfigs_ok st.targetDir data _ h2
  rw [generate_eq st data ws gti gdt hr]
  rfl

/-- C1 witness: the colliding generator state (categories foo and Foo)
satisfies the hypothesis and generate succeeds on it. -/
theorem no_collision_check_generate_succeeds_witness :
    exceptIsOk (generate collideState collideData) = true :=
  no_collision_check_generate_succeeds collideState collideData (by decide)

/-- C1 counterexample: the categories foo and Foo are distinct, their
normalized identifiers coincide, and generate neither reports an error
nor withholds the output tree: it succeeds and the global index
receives both contributions, importing the colliding identifiers
FooKey and GFoo from both ./foo and ./Foo, the later shadowing the
earlier instead of being rejected. -/
theorem colliding_identifiers_still_emitted :
    exceptIsOk (generate collideState collideData) = true ∧
    globalImportsOf (generateParts collideState collideData) =
      ["import type \x7b FooKey, GFoo \x7d from \x27./foo\x27;",
       "import type \x7b FooKey, GFoo \x7d from \x27./Foo\x27;"] ∧
    capitalize "foo" = capitalize "Foo" ∧ ("foo" : String) ≠ "Foo" := by
  exact ⟨rfl, rfl, rfl, by decide⟩

/-! ## Claim C9 -/

theorem lastWrite_decomp (ws xs ys : List (String × String)) (p v : String)
    (hws : ws = xs ++ ((p, v) :: ys)) (h : ∀ q ∈ ys, q.1 ≠ p) :
    lastWrite ws p = some v := by
  subst hws
  unfold lastWrite
  rw [List.filter_append]
  have h1 : List.filter (fun w => w.1 == p) ((p, v) :: ys) = [(p, v)] := by
    rw [List.filter_cons_of_pos (by simp)]
    rw [List.filter_eq_nil_iff.mpr (fun q hq => by simp [h q hq])]
  rw [h1, List.getLast?_concat]
  rfl

theorem gIndexPath_ne_indexPathFor (t k : String) :
    pathJoin (pathJoin t "GTypes") "index.ts" ≠ indexPathFor t k := by
  intro h
  have hlen := congrArg String.length h
  have ha : ("/" : String).length = 1 := rfl
  simp [pathJoin, indexPathFor, String.length_append, ha] at hlen
  omega

theorem lastWrite_writes_shape (t k : String) (w1 pre2 : List (String × String))
    (v g : String) :
    lastWrite (w1 ++ (pre2 ++ [(indexPathFor t k, v)]) ++
      [(pathJoin (pathJoin t "GTypes") "index.ts", g)]) (indexPathFor t k) = some v := by
  apply lastWrite_decomp _ (w1 ++ pre2) [(pathJoin (pathJoin t "GTypes") "index.ts", g)]
  · simp [List.append_assoc]
  · intro q hq
    rcases List.mem_singleton.mp hq with rfl
    exact gIndexPath_ne_indexPathFor t k

theorem generate_two_same_gkey (n1 n2 k cfgDir t : String) (c1 c2 : ConfigJson)
    (recs : List Record) (hk1 : c1.GKey = some k) (hk2 : c2.GKey = some k)
    (hd1 : isTruthyBool c1.disabled = false) (hd2 : isTruthyBool c2.disabled = false) :
    ∃ g, generate ⟨[(n1, c1), (n2, c2)], t, some cfgDir⟩ [(k, recs)] =
      Except.ok ((writesFor t [(k, recs)] c1 k ++ writesFor t [(k, recs)] c2 k) ++
        [(pathJoin (pathJoin t "GTypes") "index.ts", g)]) := by
  have hgp : generateParts ⟨[(n1, c1), (n2, c2)], t, some cfgDir⟩ [(k, recs)] =
      Except.ok (writesFor t [(k, recs)] c1 k ++ writesFor t [(k, recs)] c2 k,
        gTypesIndexLines k (jsGroupKey c1) (analysisFor [(k, recs)] c1 k) ++
          gTypesIndexLines k (jsGroupKey c2) (analysisFor [(k, recs)] c2 k),
        gDataLines k (jsGroupKey c1) (analysisFor [(k, recs)] c1 k) ++
          gDataLines k (jsGroupKey c2) (analysisFor [(k, recs)] c2 k)) := by
    simp [generateParts, processConfigs, hd1, hd2, processOne, hk1, hk2]
  have hdw : generateDefaultConfigs [(n1, c1), (n2, c2)] (some cfgDir) [(k, recs)] = [] := by
    unfold generateDefaultConfigs
    rw [List.filterMap_eq_nil_iff]
    rintro ⟨k2, r2⟩ hp
    obtain ⟨rfl, rfl⟩ : k2 = k ∧ r2 = recs := by
      simpa using List.mem_singleton.mp hp
    by_cases hv : (k2 == "version") = true
    · simp [hv]
    · have hdk : declaresGKey [(n1, c1), (n2, c2)] k2 = true := by
        simp [declaresGKey, hk1]
      simp [hv, hdk]
  have hgen := generate_eq _ [(k, recs)] _ _ _ hgp
  rw [hdw] at hgen
  simp only [List.map_nil, List.nil_append] at hgen
  exact ⟨_, hgen⟩

/-- C9: two descriptor files a.json and b.json declaring the same GKey
are both retained by loadConfig, under their distinct file base names
and with no error; generate then processes both enabled configs in
turn against the same category, both write their per-category index to
the same path targetDir/GTypes/GKey/index.ts, and the file ends up
holding the output of the later-iterated config. -/
theorem later_config_output_replaces_earlier (n1 n2 k cfgDir t : String)
    (c1 c2 : ConfigJson) (recs : List Record)
    (hx1 : extnameOf (n1 ++ ".json") = ".json") (hb1 : basenameJson (n1 ++ ".json") = n1)
    (hx2 : extnameOf (n2 ++ ".json") = ".json") (hb2 : basenameJson (n2 ++ ".json") = n2)
    (hne : n1 ≠ n2) (hk1 : c1.GKey = some k) (hk2 : c2.GKey = some k)
    (hd1 : isTruthyBool c1.disabled = false) (hd2 : isTruthyBool c2.disabled = false) :
    loadConfig [(n1 ++ ".json", some c1), (n2 ++ ".json", some c2)] =
      Except.ok [(n1, c1), (n2, c2)] ∧
    exceptIsOk (generate ⟨[(n1, c1), (n2, c2)], t, some cfgDir⟩ [(k, recs)]) = true ∧
    lastWrite (writesOk (generate ⟨[(n1, c1), (n2, c2)], t, some cfgDir⟩ [(k, recs)]))
        (indexPathFor t k)
      = some (indexContentFor [(k, recs)] c2 k) := by
  have hne2 : (n1 == n2) = false := beq_eq_false_iff_ne.mpr hne
  obtain ⟨g, hgen⟩ := generate_two_same_gkey n1 n2 k cfgDir t c1 c2 recs hk1 hk2 hd1 hd2
  refine ⟨?_, ?_, ?_⟩
  · simp [loadConfig, List.filter, hx1, hx2, loadConfigGo, listSet, hb1, hb2, hne2]
  · rw [hgen]
    rfl
  · rw [hgen]
    simp only [writesOk]
    exact lastWrite_writes_shape t k (writesFor t [(k, recs)] c1 k)
      (preWritesFor t [(k, recs)] c2 k) (indexContentFor [(k, recs)] c2 k) g

/-- C9 witness: two concrete enabled configs for the category items,
loaded from a.json and b.json, are both retained by loadConfig. -/
theorem later_config_output_replaces_earlier_witness :
    loadConfig [("a.json", some c9CfgA), ("b.json", some c9CfgB)] =
      Except.ok [("a", c9CfgA), ("b", c9CfgB)] :=
  (later_config_output_replaces_earlier "a" "b" "items" "conf" "out" c9CfgA c9CfgB []
    (by decide) (by decide) (by decide) (by decide) (by decide)
    (by decide) (by decide) (by decide) (by decide)).1

/-! ## Claim C10 -/

/-- C10: when no descriptor directory has been set (loadConfig never
ran), generateDefaultConfigs writes no descriptor file at all,
whatever the raw dataset and the loaded configs are — a silent no-op,
not an error. -/
theorem no_config_dir_no_writes (cm : List (String × ConfigJson)) (data : RawData) :
    generateDefaultConfigs cm none data = [] :=
  generateDefaultConfigs_none cm data

end Adventureland
